import Mathlib

/-!
Shallow embedding of the dynamic-dispatch core of the
`cpp-function-register-framework` repository, together with proofs of the
specification claims about it.

The embedded code is:
  * `src/include/modern_function_group.h` — class `ModernFunctionGroup`
    (registration via `add`, erased invocation via `call`, typed invocation
    via `call_as`, safe invocation via `try_call`, enumeration via
    `function_names`, backed by `std::map<std::string, wrapper>`); and
  * `src/include/simple_modern_function_group.h` — class
    `SimpleFunctionGroup` (same surface, but the wrapper produced by
    `create_wrapper` guesses the argument types at call time by
    trial-casting against a fixed candidate menu, `call_with_one_arg` /
    `call_with_two_args`).

Modelling conventions:
  * `std::any` over the universe of supported concrete types becomes the
    inductive `Value`; the empty `std::any{}` (the void marker) is `vNone`.
    C++ `double` is carried as its IEEE-754 bit pattern (a `Nat`): the core
    never computes with doubles, it only copies them, so the bit pattern is
    the faithful notion of the stored value.
  * C++ exceptions become the `Except CallError` monad; the distinct
    dynamic exception types/messages thrown by the code become the distinct
    constructors of `CallError`.
  * Side effects of a user callable are modelled by explicit state passing
    over an arbitrary state type `σ`: every invocation path returns the
    state reached at its end (also on the exceptional paths, matching C++
    exception propagation through code that has already executed).
  * `std::map<std::string, T>` becomes an association list kept strictly
    sorted by `operator<` on the keys (the `std::map` representation
    invariant), with `std::map::operator[]`-assignment as ordered
    insert-or-replace and in-order iteration as plain traversal.
-/

/-- Tags for the concrete types the framework's dispatch core supports
(`int`, `double`, `std::string`, `bool`). -/
inductive Ty : Type
  | tInt
  | tDouble
  | tString
  | tBool
  deriving DecidableEq, Repr

/-- The native Lean carrier of each supported concrete type. A C++ `double`
is represented by its 64-bit IEEE-754 bit pattern, since the core only ever
copies doubles across the erasure boundary. -/
@[reducible] def Ty.carrier : Ty → Type
  | .tInt => Int
  | .tDouble => Nat
  | .tString => String
  | .tBool => Bool

/-- An erased value: `std::any` restricted to the supported universe.
`vNone` is the empty `std::any{}` used as the void marker. -/
inductive Value : Type
  | vInt (n : Int)
  | vDouble (bits : Nat)
  | vString (s : String)
  | vBool (b : Bool)
  | vNone
  deriving DecidableEq, Repr

/-- The runtime type tag a `Value` carries (`std::any::type()`); the empty
`std::any` has no tag in this universe. -/
def Value.tag : Value → Option Ty
  | .vInt _ => some .tInt
  | .vDouble _ => some .tDouble
  | .vString _ => some .tString
  | .vBool _ => some .tBool
  | .vNone => none

/-- The exceptions the embedded code can throw, one constructor per distinct
throw site / dynamic exception type:
  * `notFound` — `std::runtime_error("Function not found: …")` in `call`
    (the spec's `NotFound`);
  * `arityMismatch` — `std::runtime_error("Function expects N arguments")`
    in `call_with_indices` (the spec's `ArgumentMismatch`);
  * `badAnyCast` — `std::bad_any_cast` from a failed `std::any_cast`
    (the spec's `ArgumentMismatch` when thrown while unpacking arguments,
    and its `TypeMismatch` when thrown while extracting the result);
  * `zeroArgNotCallable`, `noMatchingSignature`, `tooManyArgs` — the
    `std::runtime_error`s thrown by `SimpleFunctionGroup`'s guessing
    wrapper;
  * `userException` — an arbitrary exception thrown by the registered user
    callable itself (taken distinct from `std::bad_any_cast`). -/
inductive CallError : Type
  | notFound (name : String)
  | arityMismatch (expected got : Nat)
  | badAnyCast
  | zeroArgNotCallable
  | noMatchingSignature
  | tooManyArgs
  | userException
  deriving DecidableEq, Repr

deriving instance DecidableEq for Except

/-- Packing, native → erased: wrap a native value in a `Value` tagged with
its concrete type (the `std::any` constructor / `emplace_back` in `call`). -/
def pack : (t : Ty) → t.carrier → Value
  | .tInt, n => .vInt n
  | .tDouble, b => .vDouble b
  | .tString, s => .vString s
  | .tBool, b => .vBool b

/-- Unpacking, erased → native: `std::any_cast<T>` on a `Value`. Succeeds
exactly on an exact tag match and throws `std::bad_any_cast` otherwise —
no cross-type coercion. -/
def any_cast : (t : Ty) → Value → Except CallError t.carrier
  | .tInt, .vInt n => .ok n
  | .tDouble, .vDouble b => .ok b
  | .tString, .vString s => .ok s
  | .tBool, .vBool b => .ok b
  | _, _ => .error .badAnyCast

/-! ### The `std::map<std::string, T>` model -/

/-- Boolean form of `operator<` on `std::string` keys (lexicographic). -/
def strLt (a b : String) : Bool := decide (a.data < b.data)

/-- First-match lookup in an association list — `map.find(name)`. -/
def mapFind {α : Type} : List (String × α) → String → Option α
  | [], _ => none
  | (k, v) :: rest, n => if k = n then some v else mapFind rest n

/-- Ordered insert-or-replace into a key-sorted association list — the net
effect of `map[name] = value` on a `std::map`. -/
def mapAssign {α : Type} (n : String) (c : α) :
    List (String × α) → List (String × α)
  | [] => [(n, c)]
  | (k, v) :: rest =>
    if strLt n k then (n, c) :: (k, v) :: rest
    else if n = k then (n, c) :: rest
    else (k, v) :: mapAssign n c rest

/-- The effect of `mapAssign` on the key sequence alone. -/
def insertKey (n : String) : List String → List String
  | [] => [n]
  | k :: rest =>
    if strLt n k then n :: k :: rest
    else if n = k then n :: rest
    else k :: insertKey n rest

/-- Boolean check that a key sequence is strictly ascending — the
`std::map` representation invariant on the stored keys. -/
def sortedKeysB : List String → Bool
  | [] => true
  | [_] => true
  | a :: b :: rest => strLt a b && sortedKeysB (b :: rest)

/-! ### `ModernFunctionGroup` -/

/-- A registered callable as `ModernFunctionGroup::add` captures it: the
parameter-type list is known statically (`function_traits::args_tuple`),
and the effectful body runs over an explicit state `σ`. `run` is only ever
applied to argument lists whose length and tags match `argTys` (the
`std::any_cast`s in `call_with_indices` precede the invocation); `run`
answering `.ok none` models a `void` return (the
`if constexpr (is_void_v)` branch), `.ok (some v)` a value return, and
`.error` the user callable itself throwing. -/
structure Callable (σ : Type) where
  argTys : List Ty
  run : List Value → σ → Except CallError (Option Value) × σ

/-- Positional check that every supplied erased argument carries exactly
the expected tag — the conjunction of the `std::any_cast`s performed on the
argument pack in `call_with_indices`. -/
def argsMatch : List Ty → List Value → Bool
  | [], [] => true
  | t :: ts, v :: vs => (v.tag == some t) && argsMatch ts vs
  | _, _ => false

/-- Boxing of an invocation result: a value comes back as the erased value
itself, a `void` return comes back as the empty `std::any{}`, and an
exception keeps propagating. -/
def boxResult {σ : Type} : Except CallError (Option Value) × σ →
    Except CallError Value × σ
  | (.ok (some v), s) => (.ok v, s)
  | (.ok none, s) => (.ok Value.vNone, s)
  | (.error e, s) => (.error e, s)

/-- ModernFunctionGroup::call_with_indices — the body of the wrapper stored
by `add`: check the arity (`"Function expects N arguments"`), `any_cast`
each argument to its real parameter type (throwing `bad_any_cast` before
the callable runs on any mismatch), invoke the callable, and box the
result. The returned state is the state at the end of the path taken. -/
def call_with_indices {σ : Type} (c : Callable σ) (args : List Value) (s : σ) :
    Except CallError Value × σ :=
  if args.length ≠ c.argTys.length then
    (.error (.arityMismatch c.argTys.length args.length), s)
  else if argsMatch c.argTys args then
    boxResult (c.run args s)
  else
    (.error .badAnyCast, s)

/-- ModernFunctionGroup: the group name and the `std::map` from function
name to the stored wrapper. The stored entry is the `Callable` the wrapper
closes over; invoking the stored wrapper is `call_with_indices` on it. -/
structure ModernFunctionGroup (σ : Type) where
  name_ : String
  functions_ : List (String × Callable σ)

namespace ModernFunctionGroup

/-- The `std::map` representation invariant: keys strictly ascending. -/
@[reducible] def Wf {σ : Type} (g : ModernFunctionGroup σ) : Prop :=
  sortedKeysB (g.functions_.map Prod.fst) = true

/-- ModernFunctionGroup::ModernFunctionGroup — a fresh, empty group. -/
def mkGroup (σ : Type) (name : String) : ModernFunctionGroup σ :=
  { name_ := name, functions_ := [] }

/-- ModernFunctionGroup::function_names — iterate the map (ascending key
order) and collect the names. -/
def function_names {σ : Type} (g : ModernFunctionGroup σ) : List String :=
  g.functions_.map Prod.fst

/-- ModernFunctionGroup::has_function. -/
def has_function {σ : Type} (g : ModernFunctionGroup σ) (name : String) : Bool :=
  (mapFind g.functions_ name).isSome

/-- ModernFunctionGroup::add — store the erasing wrapper under `name`,
with the insert-or-assign semantics of `functions_[name] = …`. -/
def add {σ : Type} (g : ModernFunctionGroup σ) (name : String) (c : Callable σ) :
    ModernFunctionGroup σ :=
  { g with functions_ := mapAssign name c g.functions_ }

/-- ModernFunctionGroup::call — look the name up (throwing
`"Function not found"` when absent) and invoke the stored wrapper on the
erased arguments. -/
def call {σ : Type} (g : ModernFunctionGroup σ) (name : String) (args : List Value)
    (s : σ) : Except CallError Value × σ :=
  match mapFind g.functions_ name with
  | none => (.error (.notFound name), s)
  | some c => call_with_indices c args s

/-- ModernFunctionGroup::call_as with a non-void `ReturnType`: `call`,
then `std::any_cast<ReturnType>` on the erased result. -/
def call_as {σ : Type} (g : ModernFunctionGroup σ) (t : Ty) (name : String)
    (args : List Value) (s : σ) : Except CallError t.carrier × σ :=
  match g.call name args s with
  | (.ok v, s') => (any_cast t v, s')
  | (.error e, s') => (.error e, s')

/-- ModernFunctionGroup::call_as with `ReturnType = void`: `call`, discard
the erased result, signal success by returning normally. -/
def call_as_void {σ : Type} (g : ModernFunctionGroup σ) (name : String)
    (args : List Value) (s : σ) : Except CallError Unit × σ :=
  match g.call name args s with
  | (.ok _, s') => (.ok (), s')
  | (.error e, s') => (.error e, s')

/-- ModernFunctionGroup::try_call with a non-void `ReturnType`: `call`,
then `std::any_cast`, with `catch (...) { return std::nullopt; }` around
the whole body. -/
def try_call {σ : Type} (g : ModernFunctionGroup σ) (t : Ty) (name : String)
    (args : List Value) (s : σ) : Option t.carrier × σ :=
  match g.call name args s with
  | (.ok v, s') => ((any_cast t v).toOption, s')
  | (.error _, s') => (none, s')

end ModernFunctionGroup

/-! ### `SimpleFunctionGroup` -/

/-- The candidate C++ parameter types `call_with_one_arg` tries, in source
order: `int`, `double`, `std::string`, `const std::string&`. -/
inductive Cand1 : Type
  | cInt
  | cDouble
  | cString
  | cStringRef
  deriving DecidableEq, Repr

/-- The erased-value tag each one-argument candidate extracts with
`std::any_cast` (`const std::string&` also extracts a `std::string`). -/
def Cand1.tag : Cand1 → Ty
  | .cInt => .tInt
  | .cDouble => .tDouble
  | .cString => .tString
  | .cStringRef => .tString

/-- The candidate C++ parameter-type pairs `call_with_two_args` tries, in
source order: `(int,int)`, `(double,double)`, `(string,string)`,
`(const string&, const string&)`. -/
inductive Cand2 : Type
  | cIntInt
  | cDoubleDouble
  | cStringString
  | cStringRefStringRef
  deriving DecidableEq, Repr

/-- The erased-value tags each two-argument candidate extracts. -/
def Cand2.tags : Cand2 → Ty × Ty
  | .cIntInt => (.tInt, .tInt)
  | .cDoubleDouble => (.tDouble, .tDouble)
  | .cStringString => (.tString, .tString)
  | .cStringRefStringRef => (.tString, .tString)

/-- Boolean success of `std::any_cast<t>` on an erased value: exact tag
match. -/
def tagOk (t : Ty) (v : Value) : Bool := v.tag == some t

/-- A callable as `SimpleFunctionGroup` stores it: nothing about its
signature is captured at registration time, so the model keeps, for each
candidate signature of the call-time menu, whether the callable is
statically invocable with it (`std::is_invocable_v`) and what invoking it
through that candidate overload does. Distinct candidates may select
distinct overloads, hence the per-candidate bodies. `run…` answering
`.ok none` models a `void` return, `.error` an exception thrown by the
callable itself. -/
structure SimpleCallable (σ : Type) where
  invocable0 : Bool
  run0 : σ → Except CallError (Option Value) × σ
  invocable1 : Cand1 → Bool
  run1 : Cand1 → Value → σ → Except CallError (Option Value) × σ
  invocable2 : Cand2 → Bool
  run2 : Cand2 → Value → Value → σ → Except CallError (Option Value) × σ

/-- The `catch (const std::bad_any_cast&)` around one trial block of the
guessing dispatch: an invocation result that is exactly a thrown
`bad_any_cast` is swallowed and control continues with `k` (the remaining
candidates) from the state the invocation left behind; every other result
is boxed and returned. -/
def catchBadAnyCast {σ : Type} (x : Except CallError (Option Value) × σ)
    (k : σ → Except CallError Value × σ) : Except CallError Value × σ :=
  match x with
  | (.error .badAnyCast, s') => k s'
  | r => boxResult r

/-- One trial block of SimpleFunctionGroup::call_with_one_arg per listed
candidate: if the callable is not statically invocable with the candidate
the block is skipped (`if constexpr`); if the `any_cast` of the argument
throws, the `catch (const std::bad_any_cast&)` swallows it and the next
candidate is tried; otherwise the callable is invoked under the same
`catch` — a `bad_any_cast` the callable itself throws also falls through
to the next candidate (with its side effects kept), any other exception
propagates. After the last candidate:
`"Cannot call function with provided argument type"`. -/
def tryCands1 {σ : Type} (c : SimpleCallable σ) (arg : Value) (s : σ) :
    List Cand1 → Except CallError Value × σ
  | [] => (.error .noMatchingSignature, s)
  | cand :: rest =>
    if c.invocable1 cand && tagOk cand.tag arg then
      catchBadAnyCast (c.run1 cand arg s) (fun s' => tryCands1 c arg s' rest)
    else tryCands1 c arg s rest

/-- SimpleFunctionGroup::call_with_one_arg — try the four candidate
one-argument signatures in source order. -/
def call_with_one_arg {σ : Type} (c : SimpleCallable σ) (arg : Value) (s : σ) :
    Except CallError Value × σ :=
  tryCands1 c arg s [.cInt, .cDouble, .cString, .cStringRef]

/-- One trial block of SimpleFunctionGroup::call_with_two_args per listed
candidate pair, with the same skip/fall-through structure as the
one-argument trials. After the last candidate:
`"Cannot call function with provided argument types"`. -/
def tryCands2 {σ : Type} (c : SimpleCallable σ) (a1 a2 : Value) (s : σ) :
    List Cand2 → Except CallError Value × σ
  | [] => (.error .noMatchingSignature, s)
  | cand :: rest =>
    if c.invocable2 cand && (tagOk cand.tags.1 a1 && tagOk cand.tags.2 a2) then
      catchBadAnyCast (c.run2 cand a1 a2 s) (fun s' => tryCands2 c a1 a2 s' rest)
    else tryCands2 c a1 a2 s rest

/-- SimpleFunctionGroup::call_with_two_args — try the four candidate
two-argument signatures in source order. -/
def call_with_two_args {σ : Type} (c : SimpleCallable σ) (a1 a2 : Value) (s : σ) :
    Except CallError Value × σ :=
  tryCands2 c a1 a2 s [.cIntInt, .cDoubleDouble, .cStringString, .cStringRefStringRef]

/-- SimpleFunctionGroup::create_wrapper — the stored wrapper dispatches on
the number of supplied erased arguments at call time: zero arguments run
the callable directly when it is invocable with none
(`"Function not callable with 0 arguments"` otherwise), one and two
arguments enter the trial-cast menus, and more than two arguments throw
`"Functions with more than 2 arguments not yet supported"`. -/
def create_wrapper {σ : Type} (c : SimpleCallable σ) (args : List Value) (s : σ) :
    Except CallError Value × σ :=
  match args with
  | [] =>
    if c.invocable0 then boxResult (c.run0 s)
    else (.error .zeroArgNotCallable, s)
  | [a] => call_with_one_arg c a s
  | [a1, a2] => call_with_two_args c a1 a2 s
  | _ => (.error .tooManyArgs, s)

/-- SimpleFunctionGroup: the group name and the `std::map` from function
name to the stored callable; the wrapper stored by `add` is
`create_wrapper` closed over the callable, capturing no signature
information at registration time. -/
structure SimpleFunctionGroup (σ : Type) where
  name_ : String
  functions_ : List (String × SimpleCallable σ)

namespace SimpleFunctionGroup

/-- SimpleFunctionGroup::add — `functions_[name] = create_wrapper(func)`. -/
def add {σ : Type} (g : SimpleFunctionGroup σ) (name : String)
    (c : SimpleCallable σ) : SimpleFunctionGroup σ :=
  { g with functions_ := mapAssign name c g.functions_ }

/-- SimpleFunctionGroup::call — look the name up (throwing
`"Function not found"` when absent) and run the stored wrapper. -/
def call {σ : Type} (g : SimpleFunctionGroup σ) (name : String)
    (args : List Value) (s : σ) : Except CallError Value × σ :=
  match mapFind g.functions_ name with
  | none => (.error (.notFound name), s)
  | some c => create_wrapper c args s

end SimpleFunctionGroup

/-- Modelled from the spec (claim C2's description of the dispatch): try
the fixed candidate menu `int`, then `double`, then `string`, in that
order, and invoke the stored callable with the first candidate type for
which the callable is invocable and the extraction of the erased argument
does not throw; if no candidate succeeds, the invocation fails. Written
from the claim's words, to be compared with `call_with_one_arg` as
translated from the source. -/
def guessDispatch {σ : Type} (c : SimpleCallable σ) (arg : Value) (s : σ) :
    Except CallError Value × σ :=
  specTrial [.cInt, .cDouble, .cString]
where
  specTrial : List Cand1 → Except CallError Value × σ
    | [] => (.error .noMatchingSignature, s)
    | cand :: rest =>
      if c.invocable1 cand && tagOk cand.tag arg then
        boxResult (c.run1 cand arg s)
      else specTrial rest

/-! ### Concrete callables and groups used by the claims -/

open ModernFunctionGroup

/-- The demo callable `add(a: int, b: int) -> int = a + b`, as captured by
`ModernFunctionGroup::add` from `[](int a, int b) { return a + b; }`: two
`int` parameters, pure body. The catch-all branch is unreachable because
`call_with_indices` checks the tags against `argTys` before invoking. -/
def addCallable : Callable Unit :=
  { argTys := [.tInt, .tInt],
    run := fun args s =>
      match args with
      | [.vInt a, .vInt b] => (.ok (some (.vInt (a + b))), s)
      | _ => (.error .userException, s) }

/-- The demo callable `square(x: int) -> int = x * x`. -/
def sqCallable : Callable Unit :=
  { argTys := [.tInt],
    run := fun args s =>
      match args with
      | [.vInt x] => (.ok (some (.vInt (x * x))), s)
      | _ => (.error .userException, s) }

/-- A group with `square` registered under `"square"`. -/
def sqGroup : ModernFunctionGroup Unit :=
  (mkGroup Unit "demo").add "square" sqCallable

/-- An effectful `(int, int) -> int` addition whose state counts how often
the underlying callable body actually ran. -/
def addCounting : Callable Nat :=
  { argTys := [.tInt, .tInt],
    run := fun args s =>
      match args with
      | [.vInt a, .vInt b] => (.ok (some (.vInt (a + b))), s + 1)
      | _ => (.error .userException, s) }

/-- A zero-argument callable that always throws an exception of its own
(not a `bad_any_cast`), with a visible side effect before throwing. -/
def throwingCallable : Callable Nat :=
  { argTys := [],
    run := fun _ s => (.error .userException, s + 7) }

/-- A zero-argument `void` callable with a visible side effect. -/
def noopCallable : Callable Nat :=
  { argTys := [],
    run := fun _ s => (.ok none, s + 1) }

/-- A group with the effectful void callable registered under `"noop"`. -/
def noopGroup : ModernFunctionGroup Nat :=
  (mkGroup Nat "util").add "noop" noopCallable

/-- A group with the throwing callable registered under `"boom"`. -/
def throwGroup : ModernFunctionGroup Nat :=
  (mkGroup Nat "boom").add "boom" throwingCallable

/-- A callable for the `SimpleFunctionGroup` model that is statically
invocable only with a `double` parameter (its body echoes the value). -/
def doubleOnlyCallable : SimpleCallable Unit :=
  { invocable0 := false,
    run0 := fun s => (.error .userException, s),
    invocable1 := fun cand => match cand with | .cDouble => true | _ => false,
    run1 := fun _ v s =>
      match v with
      | .vDouble b => (.ok (some (.vDouble b)), s)
      | _ => (.ok none, s),
    invocable2 := fun _ => false,
    run2 := fun _ _ _ s => (.error .userException, s) }

/-! ### Properties of the `std::map` model -/

/-- The boolean key comparison agrees with the lexicographic order on
strings. -/
theorem strLt_iff (a b : String) : strLt a b = true ↔ a < b := by
  have h : a.data < b.data ↔ a.toList < b.toList := Iff.rfl
  simp [strLt, h, String.lt_iff_toList_lt]

/-- Keys never compare below themselves. -/
theorem strLt_self (a : String) : strLt a a = false := by
  have h := strLt_iff a a
  cases hs : strLt a a
  · rfl
  · exact absurd (h.mp hs) (lt_irrefl a)

/-- Assignment followed by lookup of the same key finds the assigned
value. -/
theorem mapFind_mapAssign_self {α : Type} (n : String) (c : α)
    (l : List (String × α)) : mapFind (mapAssign n c l) n = some c := by
  induction l with
  | nil => simp [mapAssign, mapFind]
  | cons hd tl ih =>
    obtain ⟨k, v⟩ := hd
    by_cases h1 : strLt n k = true
    · simp [mapAssign, h1, mapFind]
    · by_cases h2 : n = k
      · subst h2; simp [mapAssign, h1, mapFind]
      · have hk : ¬ k = n := fun h => h2 h.symm
        simp [mapAssign, h1, h2, mapFind, hk, ih]

/-- Two assignments to the same key collapse to the second one. -/
theorem mapAssign_mapAssign_self {α : Type} (n : String) (c₁ c₂ : α)
    (l : List (String × α)) :
    mapAssign n c₂ (mapAssign n c₁ l) = mapAssign n c₂ l := by
  induction l with
  | nil => simp [mapAssign, strLt_self]
  | cons hd tl ih =>
    obtain ⟨k, v⟩ := hd
    by_cases h1 : strLt n k = true
    · simp [mapAssign, h1, strLt_self]
    · by_cases h2 : n = k
      · subst h2; simp [mapAssign, h1, strLt_self]
      · simp [mapAssign, h1, h2, ih]

/-- Assignment rewrites the key sequence by `insertKey`. -/
theorem map_fst_mapAssign {α : Type} (n : String) (c : α)
    (l : List (String × α)) :
    (mapAssign n c l).map Prod.fst = insertKey n (l.map Prod.fst) := by
  induction l with
  | nil => simp [mapAssign, insertKey]
  | cons hd tl ih =>
    obtain ⟨k, v⟩ := hd
    by_cases h1 : strLt n k = true
    · simp [mapAssign, h1, insertKey]
    · by_cases h2 : n = k
      · subst h2; simp [mapAssign, h1, insertKey]
      · simp [mapAssign, h1, h2, insertKey, ih]

/-- Membership in the key sequence after an ordered insert. -/
theorem mem_insertKey {n m : String} :
    ∀ {ks : List String}, m ∈ insertKey n ks ↔ m = n ∨ m ∈ ks := by
  intro ks
  induction ks with
  | nil => simp [insertKey]
  | cons k rest ih =>
    by_cases h1 : strLt n k = true
    · simp [insertKey, h1]
    · by_cases h2 : n = k
      · subst h2
        simp [insertKey, h1]
      · simp only [insertKey, h1, Bool.false_eq_true, if_false, if_neg h2,
          List.mem_cons, ih]
        tauto

/-- Ordered insert preserves strict pairwise ascent of the keys. -/
theorem pairwise_insertKey (n : String) :
    ∀ {ks : List String}, List.Pairwise (· < ·) ks →
      List.Pairwise (· < ·) (insertKey n ks) := by
  intro ks
  induction ks with
  | nil => intro _; simp [insertKey]
  | cons k rest ih =>
    intro h
    rw [List.pairwise_cons] at h
    obtain ⟨hk, hrest⟩ := h
    by_cases h1 : strLt n k = true
    · have hnk : n < k := (strLt_iff n k).mp h1
      simp only [insertKey, h1, if_true]
      rw [List.pairwise_cons]
      refine ⟨?_, List.pairwise_cons.mpr ⟨hk, hrest⟩⟩
      intro y hy
      rcases List.mem_cons.mp hy with rfl | hy'
      · exact hnk
      · exact lt_trans hnk (hk y hy')
    · by_cases h2 : n = k
      · subst h2
        simp only [insertKey, h1, Bool.false_eq_true, if_false, if_pos rfl]
        exact List.pairwise_cons.mpr ⟨hk, hrest⟩
      · have hkn : k < n := by
          rcases lt_trichotomy n k with h | h | h
          · exact absurd ((strLt_iff n k).mpr h) (by simp [h1])
          · exact absurd h h2
          · exact h
        simp only [insertKey, h1, Bool.false_eq_true, if_false, if_neg h2]
        rw [List.pairwise_cons]
        refine ⟨?_, ih hrest⟩
        intro y hy
        rcases mem_insertKey.mp hy with rfl | hy'
        · exact hkn
        · exact hk y hy'

/-- The boolean sortedness check is strict chain ascent. -/
theorem sortedKeysB_iff :
    ∀ ks : List String, sortedKeysB ks = true ↔ List.Chain' (· < ·) ks := by
  intro ks
  induction ks with
  | nil => simp [sortedKeysB]
  | cons a tl ih =>
    cases tl with
    | nil => simp [sortedKeysB]
    | cons b rest =>
      rw [List.chain'_cons, ← ih, sortedKeysB, Bool.and_eq_true, strLt_iff]

/-- The boolean sortedness check is strict pairwise ascent. -/
theorem sortedKeysB_iff_pairwise (ks : List String) :
    sortedKeysB ks = true ↔ List.Pairwise (· < ·) ks := by
  rw [sortedKeysB_iff, List.chain'_iff_pairwise]

/-- Lookup succeeds exactly on the stored keys. -/
theorem mapFind_isSome_iff_mem {α : Type} :
    ∀ (l : List (String × α)) (n : String),
      (mapFind l n).isSome = true ↔ n ∈ l.map Prod.fst := by
  intro l n
  induction l with
  | nil => simp [mapFind]
  | cons hd tl ih =>
    obtain ⟨k, v⟩ := hd
    by_cases h : k = n
    · subst h; simp [mapFind]
    · have hn : ¬ n = k := fun hh => h hh.symm
      simp [mapFind, h, ih, hn]

/-! ### Claims -/

/-- C1: in a fresh group, after registering the two-argument integer
callable `add(a, b) = a + b` under the name `"add"`, the typed invocation
`call_as<int>("add", 15, 25)` succeeds and returns `40`. -/
theorem c1_end_to_end_add_dispatch :
    ((mkGroup Unit "math").add "add" addCallable).call_as .tInt "add"
      [pack .tInt 15, pack .tInt 25] () = (.ok 40, ()) := by
  decide

/-- C8: for every supported concrete type and every value of that type,
packing the value into an erased value and immediately unpacking it at the
same type yields the value unchanged (value equality; doubles compare by
their stored bit pattern, which is what the erasure copies). -/
theorem c8_erasure_roundtrip (t : Ty) (v : t.carrier) :
    any_cast t (pack t v) = .ok v := by
  cases t <;> rfl

/-- C3: a registered callable of real arity 2, invoked through `call_as`
with an argument count other than 2 (in particular 0, 1 or 3), always
fails with the arity error (`"Function expects 2 arguments"`, the spec's
`ArgumentMismatch`); the returned state is exactly the input state, so the
underlying callable never ran (no partial execution), and the error names
both counts, so the argument list was neither padded nor truncated. -/
theorem c3_arity_mismatch_no_partial_execution {σ : Type}
    (g : ModernFunctionGroup σ) (c : Callable σ) (t : Ty) (name : String)
    (args : List Value) (s : σ)
    (harity : c.argTys.length = 2) (hargs : args.length ≠ 2) :
    (g.add name c).call_as t name args s
      = (.error (.arityMismatch 2 args.length), s) := by
  simp [ModernFunctionGroup.call_as, ModernFunctionGroup.call,
    ModernFunctionGroup.add, mapFind_mapAssign_self, call_with_indices,
    harity, hargs]

/-- Witness for C3: the concrete arity-2 callable `add`, invoked with zero
arguments, fails with the arity error and leaves the state untouched. -/
theorem c3_arity_mismatch_no_partial_execution_witness :
    addCallable.argTys.length = 2 ∧ ([] : List Value).length ≠ 2 ∧
    ((mkGroup Unit "math").add "add" addCallable).call_as .tInt "add" [] ()
      = (.error (.arityMismatch 2 0), ()) :=
  ⟨by decide, by decide,
    c3_arity_mismatch_no_partial_execution (mkGroup Unit "math") addCallable
      .tInt "add" [] () (by decide) (by decide)⟩

/-- C4: invoking a registered `(int, int) -> int` callable through
`call_as<string>` with two int arguments fails with `bad_any_cast` (the
spec's `TypeMismatch`), and the state returned with the failure is the
state after the callable ran to completion on its correct arguments — only
the result extraction failed. The same entry, asked for `int` instead,
succeeds with the computed value, so the registry entry is intact. -/
theorem c4_result_type_mismatch_after_full_execution {σ : Type}
    (g : ModernFunctionGroup σ) (c : Callable σ) (name : String)
    (a b v : Int) (s s' : σ)
    (hty : c.argTys = [.tInt, .tInt])
    (hrun : c.run [.vInt a, .vInt b] s = (.ok (some (.vInt v)), s')) :
    (g.add name c).call_as .tString name [.vInt a, .vInt b] s
        = (.error .badAnyCast, s')
    ∧ (g.add name c).call_as .tInt name [.vInt a, .vInt b] s = (.ok v, s') := by
  constructor <;>
    simp [ModernFunctionGroup.call_as, ModernFunctionGroup.call,
      ModernFunctionGroup.add, mapFind_mapAssign_self, call_with_indices,
      hty, argsMatch, Value.tag, hrun, boxResult, any_cast]

/-- Witness for C4: the counting addition registered under `"plus"`,
called as `call_as<string>("plus", 3, 4)`: it fails with `bad_any_cast`
and the invocation counter shows the body ran exactly once; the `int`
request on the same group returns `7`. -/
theorem c4_result_type_mismatch_after_full_execution_witness :
    addCounting.argTys = [.tInt, .tInt]
    ∧ addCounting.run [.vInt 3, .vInt 4] 0 = (.ok (some (.vInt 7)), 1)
    ∧ ((mkGroup Nat "m").add "plus" addCounting).call_as .tString "plus"
        [.vInt 3, .vInt 4] 0 = (.error .badAnyCast, 1)
    ∧ ((mkGroup Nat "m").add "plus" addCounting).call_as .tInt "plus"
        [.vInt 3, .vInt 4] 0 = (.ok 7, 1) :=
  ⟨rfl, by decide,
    (c4_result_type_mismatch_after_full_execution (mkGroup Nat "m") addCounting
      "plus" 3 4 7 0 1 rfl (by decide)).1,
    (c4_result_type_mismatch_after_full_execution (mkGroup Nat "m") addCounting
      "plus" 3 4 7 0 1 rfl (by decide)).2⟩

/-- C5: whenever `call_as` fails — with `NotFound`, the arity error, an
argument-cast `bad_any_cast` or a result-cast `bad_any_cast` — `try_call`
with the same name, arguments and requested return type returns the empty
optional instead of propagating the distinguishable error (and reaches the
same state, since both run the same call path). -/
theorem c5_try_call_collapses_failures {σ : Type} (g : ModernFunctionGroup σ)
    (t : Ty) (name : String) (args : List Value) (s : σ) (e : CallError)
    (hfail : (g.call_as t name args s).1 = .error e) :
    g.try_call t name args s = (none, (g.call_as t name args s).2) := by
  rcases hc : g.call name args s with ⟨r, s'⟩
  cases r with
  | error e' =>
    simp [ModernFunctionGroup.try_call, ModernFunctionGroup.call_as, hc]
  | ok v =>
    simp only [ModernFunctionGroup.call_as, hc] at hfail
    simp [ModernFunctionGroup.try_call, ModernFunctionGroup.call_as, hc, hfail,
      Except.toOption]

/-- Witness for C5: with `square(x) = x * x` registered under `"square"`,
`try_call<string>("square", 7)` is `none` although the same call requesting
`int` succeeds with `49`, and `try_call<int>("missing", 1, 2)` on a name
that was never registered is `none`. -/
theorem c5_try_call_collapses_failures_witness :
    ((sqGroup.call_as .tString "square" [.vInt 7] ()).1 = .error .badAnyCast)
    ∧ sqGroup.try_call .tString "square" [.vInt 7] () = (none, ())
    ∧ ((sqGroup.call_as .tInt "missing" [.vInt 1, .vInt 2] ()).1
        = .error (.notFound "missing"))
    ∧ sqGroup.try_call .tInt "missing" [.vInt 1, .vInt 2] () = (none, ())
    ∧ sqGroup.call_as .tInt "square" [.vInt 7] () = (.ok 49, ()) :=
  ⟨by decide,
    c5_try_call_collapses_failures sqGroup .tString "square" [.vInt 7] ()
      .badAnyCast (by decide),
    by decide,
    c5_try_call_collapses_failures sqGroup .tInt "missing" [.vInt 1, .vInt 2] ()
      (.notFound "missing") (by decide),
    by decide⟩

/-- C9: `try_call` is total — it returns a value or the empty optional,
never an escaping exception: whenever the underlying `call` throws
anything, including an arbitrary exception raised by the registered user
callable itself (`userException`, a cause outside the spec's
NotFound/ArgumentMismatch/TypeMismatch taxonomy), the `catch (...)` turns
it into the empty optional, keeping the side effects performed up to the
throw. -/
theorem c9_try_call_swallows_user_exceptions {σ : Type}
    (g : ModernFunctionGroup σ) (t : Ty) (name : String) (args : List Value)
    (s : σ) (e : CallError)
    (hthrow : (g.call name args s).1 = .error e) :
    g.try_call t name args s = (none, (g.call name args s).2) := by
  rcases hc : g.call name args s with ⟨r, s'⟩
  rw [hc] at hthrow
  cases r with
  | error e' => simp [ModernFunctionGroup.try_call, hc]
  | ok v => exact absurd hthrow (by simp)

/-- Witness for C9: the registered callable under `"boom"` runs its side
effect (counter `0 → 7`) and then throws; `try_call<int>("boom")` returns
the empty optional with the side effect kept. -/
theorem c9_try_call_swallows_user_exceptions_witness :
    ((throwGroup.call "boom" [] 0).1 = .error .userException)
    ∧ throwGroup.try_call .tInt "boom" [] 0 = (none, 7) :=
  ⟨by decide,
    c9_try_call_swallows_user_exceptions throwGroup .tInt "boom" [] 0
      .userException (by decide)⟩

/-- C6: the claimed empty-but-successful indicator of `try_call_as<void>`
does not exist in the program. The signature `std::optional<ReturnType>`
makes the `ReturnType = void` specialization of `try_call` ill-formed
(`std::optional<void>` is not a valid type; the `if constexpr` guards only
the body), so the claim's invocation is a compile error and the void
contract is unexercisable through `try_call`. Evaluating the instantiable
operations at the claim's scenario shows the surviving behaviour: the
registered `() -> void` callable `"noop"` demonstrably succeeds —
`call_as<void>` returns normally and the side effect runs (`0 → 1`) —
yet through the instantiable `try_call<int>` that successful void
execution surfaces as the empty optional (`any_cast<int>` on the empty
`std::any` result fails), the very indicator the failing
`try_call<int>("missing")` returns: no distinct void-success indicator is
reachable anywhere in the `try_call` family. -/
theorem c6_code_bug_void_success_unobservable :
    noopGroup.call_as_void "noop" [] 0 = (.ok (), 1)
    ∧ noopGroup.call_as_void "missing" [] 0 = (.error (.notFound "missing"), 0)
    ∧ noopGroup.try_call .tInt "noop" [] 0 = (none, 1)
    ∧ noopGroup.try_call .tInt "missing" [] 0 = (none, 0)
    ∧ (noopGroup.try_call .tInt "noop" [] 0).1
        = (noopGroup.try_call .tInt "missing" [] 0).1 := by
  refine ⟨by decide, by decide, by decide, by decide, by decide⟩

/-- C7: registering `c₁` and then `c₂` under the same name in the same
group replaces the prior entry: the resulting map is exactly the one
obtained by registering `c₂` alone, every subsequent call on the name
invokes `c₂` (never `c₁`), and on a well-formed group the name appears
exactly once in the enumeration — the re-registration is neither silently
ignored nor duplicated. -/
theorem c7_last_write_wins {σ : Type} (g : ModernFunctionGroup σ)
    (name : String) (c₁ c₂ : Callable σ) (hwf : g.Wf) :
    (g.add name c₁).add name c₂ = g.add name c₂
    ∧ (∀ args s, ((g.add name c₁).add name c₂).call name args s
        = call_with_indices c₂ args s)
    ∧ ((g.add name c₁).add name c₂).function_names.count name = 1 := by
  have heq : (g.add name c₁).add name c₂ = g.add name c₂ := by
    simp [ModernFunctionGroup.add, mapAssign_mapAssign_self]
  refine ⟨heq, ?_, ?_⟩
  · intro args s
    rw [heq]
    simp [ModernFunctionGroup.call, ModernFunctionGroup.add,
      mapFind_mapAssign_self]
  · rw [heq]
    have hkeys : (g.add name c₂).function_names
        = insertKey name (g.functions_.map Prod.fst) := by
      simp [ModernFunctionGroup.function_names, ModernFunctionGroup.add,
        map_fst_mapAssign]
    rw [hkeys]
    have hpw : List.Pairwise (· < ·)
        (insertKey name (g.functions_.map Prod.fst)) :=
      pairwise_insertKey name ((sortedKeysB_iff_pairwise _).mp hwf)
    have hnd : (insertKey name (g.functions_.map Prod.fst)).Nodup :=
      hpw.imp fun h => ne_of_lt h
    exact List.count_eq_one_of_mem hnd (mem_insertKey.mpr (Or.inl rfl))

/-- Witness for C7: on the well-formed group with `"square"` registered,
registering first `addCallable` and then `sqCallable` under `"f"` behaves
exactly like registering `sqCallable` alone, dispatches to it, and lists
`"f"` once. -/
theorem c7_last_write_wins_witness :
    sqGroup.Wf
    ∧ (sqGroup.add "f" addCallable).add "f" sqCallable
        = sqGroup.add "f" sqCallable
    ∧ ((sqGroup.add "f" addCallable).add "f" sqCallable).call "f" [.vInt 3] ()
        = call_with_indices sqCallable [.vInt 3] ()
    ∧ ((sqGroup.add "f" addCallable).add "f" sqCallable).function_names.count "f"
        = 1 :=
  ⟨by decide,
    (c7_last_write_wins sqGroup "f" addCallable sqCallable (by decide)).1,
    (c7_last_write_wins sqGroup "f" addCallable sqCallable (by decide)).2.1
      [.vInt 3] (),
    (c7_last_write_wins sqGroup "f" addCallable sqCallable (by decide)).2.2⟩

/-- C10: on a well-formed group (and well-formedness is preserved by every
registration), `function_names` lists the registered names in strictly
ascending lexicographic order with no duplicates, and the enumeration is a
deterministic function of the set of registered names alone: two
well-formed groups with the same membership enumerate identically,
independent of insertion order. -/
theorem c10_function_names_sorted_deterministic {σ : Type}
    (g : ModernFunctionGroup σ) (hwf : g.Wf) :
    List.Chain' (· < ·) g.function_names
    ∧ g.function_names.Nodup
    ∧ (∀ name c, (g.add name c).Wf)
    ∧ ∀ g' : ModernFunctionGroup σ, g'.Wf →
        (∀ n, g.has_function n = g'.has_function n) →
        g.function_names = g'.function_names := by
  have hpw : List.Pairwise (· < ·) g.function_names :=
    (sortedKeysB_iff_pairwise _).mp hwf
  have hnd : g.function_names.Nodup := hpw.imp fun h => ne_of_lt h
  refine ⟨(sortedKeysB_iff _).mp hwf, hnd, ?_, ?_⟩
  · intro name c
    show sortedKeysB ((mapAssign name c g.functions_).map Prod.fst) = true
    rw [map_fst_mapAssign, sortedKeysB_iff_pairwise]
    exact pairwise_insertKey name ((sortedKeysB_iff_pairwise _).mp hwf)
  · intro g' hwf' hsame
    have hpw' : List.Pairwise (· < ·) g'.function_names :=
      (sortedKeysB_iff_pairwise _).mp hwf'
    have hnd' : g'.function_names.Nodup := hpw'.imp fun h => ne_of_lt h
    have hmem : ∀ n, n ∈ g.function_names ↔ n ∈ g'.function_names := by
      intro n
      simp only [ModernFunctionGroup.function_names]
      rw [← mapFind_isSome_iff_mem, ← mapFind_isSome_iff_mem]
      show (ModernFunctionGroup.has_function g n = true)
        ↔ (ModernFunctionGroup.has_function g' n = true)
      rw [hsame n]
    have hperm : g.function_names.Perm g'.function_names :=
      (List.perm_ext_iff_of_nodup hnd hnd').mpr hmem
    haveI : IsAntisymm String (· < ·) :=
      ⟨fun a b h1 h2 => absurd h2 (lt_asymm h1)⟩
    exact List.eq_of_perm_of_sorted hperm hpw hpw'

/-- Witness for C10: a concrete well-formed two-entry group built in one
insertion order and the same names inserted in the opposite order
enumerate identically, in ascending order, without duplicates. -/
theorem c10_function_names_sorted_deterministic_witness :
    (((mkGroup Unit "x").add "mul" sqCallable).add "add" addCallable).Wf
    ∧ (((mkGroup Unit "x").add "add" addCallable).add "mul" sqCallable).Wf
    ∧ List.Chain' (· < ·)
        (((mkGroup Unit "x").add "mul" sqCallable).add "add" addCallable).function_names
    ∧ (((mkGroup Unit "x").add "mul" sqCallable).add "add" addCallable).function_names.Nodup
    ∧ (((mkGroup Unit "x").add "mul" sqCallable).add "add" addCallable).function_names
        = (((mkGroup Unit "x").add "add" addCallable).add "mul" sqCallable).function_names :=
  ⟨by decide, by decide,
    (c10_function_names_sorted_deterministic _ (by decide)).1,
    (c10_function_names_sorted_deterministic _ (by decide)).2.1,
    (c10_function_names_sorted_deterministic _ (by decide)).2.2.2
      (((mkGroup Unit "x").add "add" addCallable).add "mul" sqCallable)
      (by decide) (fun n => rfl)⟩

/-- When the invocation result is not a thrown `bad_any_cast`, the catch
around a trial block does not fire. -/
theorem catchBadAnyCast_of_no_bad {σ : Type}
    (x : Except CallError (Option Value) × σ)
    (k : σ → Except CallError Value × σ) (h : x.1 ≠ .error .badAnyCast) :
    catchBadAnyCast x k = boxResult x := by
  rcases x with ⟨r, s'⟩
  cases r with
  | ok v => rfl
  | error e =>
    cases e
    case badAnyCast => exact absurd rfl h
    all_goals rfl

/-- C2: the `SimpleFunctionGroup` one-argument dispatch determines the
parameter type at call time only, by trial-casting the erased argument
against the fixed menu `int`, then `double`, then `string`, in that order,
invoking the stored callable with the first candidate for which it is
invocable and the extraction succeeds, and failing
(`"Cannot call function with provided argument type"`) when no candidate
succeeds — `call_with_one_arg` coincides with `guessDispatch`, the
dispatch written from the claim's words. The hypotheses restrict the model
to C++-realisable callables: `hcpp` holds because any C++ callable
invocable with `const std::string&` is also invocable with a
`std::string` value (the source's fourth trial block repeats the `string`
extraction for the `const std::string&` overload), and `hnb` says the user
callable does not itself throw `std::bad_any_cast`. -/
theorem c2_call_time_signature_guessing {σ : Type} (c : SimpleCallable σ)
    (hcpp : c.invocable1 .cStringRef = true → c.invocable1 .cString = true)
    (hnb : ∀ cand arg s₀, (c.run1 cand arg s₀).1 ≠ .error .badAnyCast)
    (arg : Value) (s : σ) :
    call_with_one_arg c arg s = guessDispatch c arg s := by
  have hstep : ∀ cand rest s₀,
      tryCands1 c arg s₀ (cand :: rest)
        = if c.invocable1 cand && tagOk cand.tag arg
          then boxResult (c.run1 cand arg s₀)
          else tryCands1 c arg s₀ rest := by
    intro cand rest s₀
    by_cases hc : (c.invocable1 cand && tagOk cand.tag arg) = true
    · simp only [tryCands1, hc, if_true]
      exact catchBadAnyCast_of_no_bad _ _ (hnb cand arg s₀)
    · simp only [tryCands1, hc, Bool.false_eq_true, if_false]
  show tryCands1 c arg s [.cInt, .cDouble, .cString, .cStringRef]
    = guessDispatch c arg s
  rw [hstep, hstep, hstep, hstep]
  simp only [guessDispatch, guessDispatch.specTrial, tryCands1, Cand1.tag]
  by_cases h1 : (c.invocable1 .cInt && tagOk Ty.tInt arg) = true
  · simp [h1]
  · simp only [h1, Bool.false_eq_true, if_false]
    by_cases h2 : (c.invocable1 .cDouble && tagOk Ty.tDouble arg) = true
    · simp [h2]
    · simp only [h2, Bool.false_eq_true, if_false]
      by_cases h3 : (c.invocable1 .cString && tagOk Ty.tString arg) = true
      · simp [h3]
      · have h4 : (c.invocable1 .cStringRef && tagOk Ty.tString arg) = false := by
          cases hs : c.invocable1 .cStringRef
          · simp
          · cases ht : tagOk Ty.tString arg
            · simp
            · exact absurd (by simp [hcpp hs, ht]) h3
        simp [h3, h4]

/-- Witness for C2: a callable invocable only at `double` (so the first
menu entry is skipped as not invocable), applied to an erased `double`:
the source dispatch and the claim's dispatch coincide. -/
theorem c2_call_time_signature_guessing_witness :
    (doubleOnlyCallable.invocable1 .cStringRef = true →
      doubleOnlyCallable.invocable1 .cString = true)
    ∧ call_with_one_arg doubleOnlyCallable (.vDouble 5) ()
        = guessDispatch doubleOnlyCallable (.vDouble 5) ()
    ∧ call_with_one_arg doubleOnlyCallable (.vDouble 5) ()
        = (.ok (.vDouble 5), ()) :=
  ⟨by decide,
    c2_call_time_signature_guessing doubleOnlyCallable (by decide)
      (fun cand arg s₀ => by cases arg <;> exact fun h => nomatch h)
      (.vDouble 5) (),
    by decide⟩
